import Mathlib

/-!
Verification development for the ColourfulWords program.

The Rust sources are shallowly embedded: strings are modelled as `List Char`,
`Vec<Vec<String>>` cell grids as `List (List (List Char))`, fallible functions
return `Except`, and a possible Rust panic is modelled by an outer `Option`
whose `none` value means "the code panics here" (no value of the declared
result type is ever produced).  File contents are modelled as the character
sequence of the file; the upstream image generator is modelled as the list of
items it will yield, so that "pull once" is "consume the head".
-/

deriving instance DecidableEq for Except

namespace ColourfulWords

/-- A cell: one styled token of the grid, i.e. one Rust `String`. -/
abbrev Cell := List Char

/-- An image array: the `Vec<Vec<String>>` grid of cells. -/
abbrev ImageArray := List (List Cell)

/-- `printer.rs` `PrinterImageData`: logical name plus the cell grid. -/
structure PrinterImageData where
  image_name : List Char
  image_array : ImageArray
deriving DecidableEq, Repr

/-- `image_storage.rs` `StorageError` (the `io::Error` payload is dropped). -/
inductive StorageError where
  | SavePathError
  | SaveError
  | LoadError (path : List Char)
  | NotADirError
  | OpeningDirError
  | IoError
deriving DecidableEq, Repr

/-- `ImageStorage::CELL_SEPARATOR`, the single-space separator string. -/
def CELL_SEPARATOR : Char := ' '

/-- `ImageStorage::IMAGE_EXTENSION`. -/
def IMAGE_EXTENSION : List Char := "cwi".data

/-- Rust `Vec::join` on strings with a one-character separator, as used by
`save_image` (`row.join(Self::CELL_SEPARATOR)`). -/
def rowToLine : List Cell → List Char
  | [] => []
  | [cell] => cell
  | cell :: next :: rest => cell ++ CELL_SEPARATOR :: rowToLine (next :: rest)

/-- The file content produced by `save_image`'s write loop: one `writeln!`
per row, i.e. the joined row followed by a newline character. -/
def saveContent (arr : ImageArray) : List Char :=
  (arr.map rowToLine).foldr (fun line acc => line ++ '\n' :: acc) []

/-- One trailing carriage return is stripped from each line by
`BufRead::lines`. -/
def stripCR (l : List Char) : List Char :=
  if l.getLast? = some '\r' then l.dropLast else l

/-- Accumulator pass for `bufLines`; `acc` is the current line, reversed. -/
def bufLinesGo : List Char → List Char → List (List Char)
  | [], acc => if acc.isEmpty then [] else [stripCR acc.reverse]
  | c :: rest, acc =>
    if c = '\n' then stripCR acc.reverse :: bufLinesGo rest []
    else bufLinesGo rest (c :: acc)

/-- Rust `BufRead::lines` on an in-memory file content: lines are separated
by `'\n'`, a trailing `'\r'` is stripped from each line, and a final newline
does not produce an extra empty line. -/
def bufLines (content : List Char) : List (List Char) := bufLinesGo content []

/-- `line.split(CELL_SEPARATOR).map(str::to_string).collect()`. Rust `split`
on a one-character pattern keeps empty pieces, exactly like `List.splitOn`. -/
def splitCells (line : List Char) : List Cell := line.splitOn CELL_SEPARATOR

/-- The check-and-split applied by `load_image` to each line after the first:
split into cells and fail with `LoadError` if the cell count differs from the
first row's cell count. -/
def loadRow (path : List Char) (expected : Nat) (line : List Char) :
    Except StorageError (List Cell) :=
  let current := splitCells line
  if current.length ≠ expected then .error (.LoadError path) else .ok current

/-- `collect::<Result<Vec<_>, _>>` over the checked lines: the whole
collection fails as soon as one line fails. -/
def collectRows (path : List Char) (expected : Nat) :
    List (List Char) → Except StorageError (List (List Cell))
  | [] => .ok []
  | line :: rest =>
    match loadRow path expected line with
    | .error e => .error e
    | .ok row =>
      match collectRows path expected rest with
      | .error e => .error e
      | .ok rows => .ok (row :: rows)

/-- `ImageLoadIterator::load_image` on the lines of one file.  The first line
is split into cells and fixes the expected width; every later line must split
into the same number of cells or the whole file fails with `LoadError`.
The remaining rows go through `lines.par_bridge()` in the source and are
collected with `collect::<Result<Vec<_>, _>>`; `par_bridge` does not promise
the source order, so this definition is the *sequential delivery schedule*
(rows delivered in source order).  Success/failure and the error value are
the same under every schedule (each row is checked independently and every
failure is the same `LoadError path`); statements that depend on the row
order must use `load_image_par` below, quantified over all delivery orders.
An empty file fails with `LoadError`.  `path` is the full path used in the
error, `fileName` the file-name component stored in the result. -/
def load_image (path fileName : List Char) (lines : List (List Char)) :
    Except StorageError PrinterImageData :=
  match lines with
  | [] => .error (.LoadError path)
  | first :: rest =>
    let firstRow := splitCells first
    let expected := firstRow.length
    match collectRows path expected rest with
    | .error e => .error e
    | .ok remaining => .ok ⟨fileName, firstRow :: remaining⟩

/-- `ImageLoadIterator::load_image` with the delivery order of the
`par_bridge` row collection made explicit: `delivered` is the order in which
the parallel bridge hands the lines after the first to `collect`.  Rayon
documents `par_bridge` as not preserving the source order, so a faithful
statement about the loaded rows quantifies over every `delivered` that is a
permutation of those lines; `load_image` is the instance where `delivered`
is the source order. -/
def load_image_par (path fileName first : List Char)
    (delivered : List (List Char)) : Except StorageError PrinterImageData :=
  let firstRow := splitCells first
  let expected := firstRow.length
  match collectRows path expected delivered with
  | .error e => .error e
  | .ok remaining => .ok ⟨fileName, firstRow :: remaining⟩

/-- The white cell emitted for an RGB(255,255,255) pixel: colour tag, space
glyph, reset tag.  Its glyph coincides with the cell separator. -/
def whiteTagChars : List Char := "\x1B[38;2;255;255;255m".data

/-- The ANSI reset suffix of every cell. -/
def resetChars : List Char := "\x1B[0m".data

/-- A full white cell token (space glyph between tag and reset). -/
def spaceCellWhite : List Char := whiteTagChars ++ ' ' :: resetChars

/-- One result of `read_dir`: either an errored entry (skipped with
`continue`) or an entry with a file name, an optional extension and the
file's content. -/
inductive DirResult where
  | errEntry : DirResult
  | okEntry (fileName : List Char) (ext : Option (List Char))
      (content : List Char) : DirResult

/-- `ImageLoadIterator::next` run to exhaustion over the directory walk:
errored entries and entries without the `cwi` extension are skipped, and
every remaining candidate yields one `load_image` result — a failing file
yields its `Err` item and iteration continues with the next entry. -/
def loadAll : List DirResult → List (Except StorageError PrinterImageData)
  | [] => []
  | .errEntry :: rest => loadAll rest
  | .okEntry name ext content :: rest =>
    if ext = some IMAGE_EXTENSION then
      load_image name name (bufLines content) :: loadAll rest
    else loadAll rest

/-- `ValidImageLoadIterator::next` run to exhaustion: the same walk, with
failed files logged and dropped and successes yielded. -/
def validAll : List DirResult → List PrinterImageData
  | [] => []
  | .errEntry :: rest => validAll rest
  | .okEntry name ext content :: rest =>
    if ext = some IMAGE_EXTENSION then
      match load_image name name (bufLines content) with
      | .ok img => img :: validAll rest
      | .error _ => validAll rest
    else validAll rest

/-- The candidate files of a directory walk: name and content of every
non-errored entry carrying the image extension, in walk order. -/
def candidates : List DirResult → List (List Char × List Char)
  | [] => []
  | .errEntry :: rest => candidates rest
  | .okEntry name ext content :: rest =>
    if ext = some IMAGE_EXTENSION then
      (name, content) :: candidates rest
    else candidates rest

/-- `ImageStorage::get_image_name`: `<unix-seconds>_<name>.<extension>`. -/
def get_image_name (nowSecs : Nat) (image_name : List Char) : List Char :=
  (Nat.repr nowSecs).data ++ '_' :: image_name ++ '.' :: IMAGE_EXTENSION

/-- A filesystem path, as its list of components. -/
abbrev FsPath := List (List Char)

/-- Environment of `save_image`: the seconds `SystemTime::now` reports at the
k-th `get_image_name` call, and which paths currently exist on disk. -/
structure SaveEnv where
  timeAt : Nat → Nat
  pathExists : FsPath → Bool

/-- The collision loop of `save_image` (`while path.exists() { sleep(..);
path = path.join(Self::get_image_name(image_name)); }`), with explicit fuel
for the unbounded loop; returns the path handed to `File::create`.  The
source joins the regenerated file name onto the previous full path. -/
def saveResolve (env : SaveEnv) (image_name : List Char) :
    Nat → FsPath → Nat → Option FsPath
  | 0, path, _ => if env.pathExists path then none else some path
  | fuel + 1, path, k =>
    if env.pathExists path then
      saveResolve env image_name fuel
        (path ++ [get_image_name (env.timeAt k) image_name]) (k + 1)
    else some path

/-- Outcome of `save_image`: the path the file is created at, and the name
the function returns to its caller. -/
structure SaveOutcome where
  writtenPath : FsPath
  returnedName : List Char
deriving DecidableEq, Repr

/-- `ImageStorage::save_image`, path resolution and returned name (the
written content is `saveContent`).  `new_image_name` is generated once, from
the first timestamp, and returned unchanged whatever path the collision loop
ends on; `none` means the loop never found a free path within the fuel. -/
def save_image (env : SaveEnv) (fuel : Nat) (save_path image_name : List Char) :
    Option SaveOutcome :=
  let new_image_name := get_image_name (env.timeAt 0) image_name
  (saveResolve env image_name fuel [save_path, new_image_name] 1).map
    (fun p => ⟨p, new_image_name⟩)

/-- The environment of the C6 collision scenario: the clock advances by one
second per call and exactly the first candidate path already exists. -/
def collisionEnv : SaveEnv :=
  ⟨fun k => 100 + k,
   fun p => decide (p = ["d".data, get_image_name 100 "img".data])⟩

/-- `converter.rs` `ConverterError`: its only variants — there is no
decode-failure variant. -/
inductive ConverterError where
  | NoImageLeftError
  | NoImagesRegisteredError
deriving DecidableEq, Repr

/-- `Converter::ASCII_CHARS`: the 13 palette glyphs, densest to sparsest. -/
def ASCII_CHARS : List Char :=
  ['@', '#', 'S', '%', '&', '?', '*', '+', '-', ':', ',', '.', ' ']

/-- Rust release-mode `u32` arithmetic wraps at `2 ^ 32`. -/
def U32_MOD : Nat := 2 ^ 32

/-- `let height = original_height * image_width / original_width;
let height = height.max(1);` in `u32` arithmetic (the product wraps). -/
def targetHeight (original_width original_height image_width : Nat) : Nat :=
  Nat.max 1 (original_height * image_width % U32_MOD / original_width)

/-- `let brightness = (r + g + b) / 3` (the casts to `u32` cannot wrap). -/
def brightnessOf (r g b : Nat) : Nat := (r + g + b) / 3

/-- `let char_index = ((brightness * ascii_length_m1) + 127) / 255`. -/
def charIndexOf (r g b : Nat) : Nat :=
  (brightnessOf r g b * (ASCII_CHARS.length - 1) + 127) / 255

/-- The ANSI foreground colour tag `ESC[38;2;<r>;<g>;<b>m`. -/
def fgTag (r g b : Nat) : List Char :=
  "\x1B[38;2;".data ++ (Nat.repr r).data ++ ';' :: (Nat.repr g).data
    ++ ';' :: (Nat.repr b).data ++ ['m']

/-- One output cell of `convert_image`: colour tag for the pixel, the palette
glyph selected by `char_index`, and the ANSI reset. -/
def buildCell (r g b : Nat) : Cell :=
  fgTag r g b ++ ASCII_CHARS.getD (charIndexOf r g b) '@' :: resetChars

/-- The per-pixel loop of `Converter::convert_image` over the resized raster
of dimensions `width × height`: rows are computed independently and
reassembled in row order (the `into_par_iter().map(..).collect()` contract),
`pix x y` giving the RGB channels of the resized raster. -/
def convertLoop (pix : Nat → Nat → Nat × Nat × Nat) (width height : Nat) :
    ImageArray :=
  (List.range height).map (fun y =>
    (List.range width).map (fun x =>
      buildCell (pix x y).1 (pix x y).2.1 (pix x y).2.2))

/-- A decoded image: its dimensions, and the resampled raster the `image`
crate's `resize_exact(W, H, CatmullRom).to_rgb8()` would produce for each
requested size — the collaborator is modelled by its contract (a raster of
exactly the requested dimensions); `resampled W H x y` gives its channels. -/
structure DecodedImage where
  width : Nat
  height : Nat
  resampled : Nat → Nat → Nat → Nat → Nat × Nat × Nat

/-- `Converter::convert_image` after a successful decode: clamp the target
height, resize to exactly `image_width × height`, run the pixel loop. -/
def convert_image_decoded (img : DecodedImage) (image_width : Nat) :
    ImageArray :=
  let h := targetHeight img.width img.height image_width
  convertLoop (img.resampled image_width h) image_width h

/-- `Converter::convert_image` including its decode step
`image::load_from_memory(&image_bytes).expect(..)`.  The decode result of
the collaborating `image` crate is the `Option` argument; on `none`
(unrecognizable bytes) `expect` panics, modelled as the outer `none` — no
value of any error type is produced. -/
def convert_image (decoded : Option DecodedImage) (image_width : Nat) :
    Option ImageArray :=
  decoded.map (fun img => convert_image_decoded img image_width)

/-- The oversized image of the C7 counterexample (all-black resamples). -/
def bigImage : DecodedImage := ⟨3, 65536, fun _ _ _ _ => (0, 0, 0)⟩

/-- `printer.rs` `PrinterError` (the `io::Error` payload is dropped). -/
inductive PrinterError where
  | NoImageLeftError
  | NoImagesRegisteredError
  | IoError
  | EmptyImageError
  | ClipboardError
  | InvalidImageError
deriving DecidableEq, Repr

/-- `printer.rs` `ColouredImage`. -/
structure ColouredImage where
  image_array : ImageArray
  index : Nat
  image_name : List Char
  is_rendered : Bool
  printing_rate_ms : Nat
deriving DecidableEq, Repr

/-- Placeholder used to model the panicking index `coloured_images[i]`; the
cursor-validity invariant shows it is never reached from a valid state. -/
def dummyImage : ColouredImage := ⟨[], 0, [], false, 0⟩

/-- `printer.rs` `Printer`.  The upstream generator is modelled as the list
of items it will still yield, so one `next()` call consumes the head and
exhaustion is the empty list. -/
structure Printer where
  image_generator : List PrinterImageData
  coloured_images : List ColouredImage
  current_image : Nat
  printing_rate_ms : Nat
deriving DecidableEq, Repr

/-- `Printer::new`. -/
def Printer.new (gen : List PrinterImageData) (rate : Nat) : Printer :=
  ⟨gen, [], 0, rate⟩

/-- `Printer::add_image_and_set_current`. -/
def addImageAndSetCurrent (p : Printer) (d : PrinterImageData) : Printer :=
  let new_image_index := p.coloured_images.length
  { p with
    coloured_images := p.coloured_images
      ++ [⟨d.image_array, new_image_index, d.image_name, false,
           p.printing_rate_ms⟩],
    current_image := new_image_index }

/-- `Printer::move_to_next_image`.  The returned `&mut self` carries no data,
so the result is `Except PrinterError Unit` next to the updated state; every
error branch of the source leaves the state untouched. -/
def moveToNextImage (p : Printer) : Except PrinterError Unit × Printer :=
  if p.coloured_images.isEmpty then
    match p.image_generator with
    | d :: rest =>
      (.ok (), addImageAndSetCurrent { p with image_generator := rest } d)
    | [] => (.error .NoImagesRegisteredError, p)
  else if p.current_image < p.coloured_images.length - 1 then
    (.ok (), { p with current_image := p.current_image + 1 })
  else
    match p.image_generator with
    | d :: rest =>
      (.ok (), addImageAndSetCurrent { p with image_generator := rest } d)
    | [] => (.error .NoImageLeftError, p)

/-- `Printer::move_to_previous_image`. -/
def moveToPreviousImage (p : Printer) : Except PrinterError Unit × Printer :=
  if p.coloured_images.isEmpty then (.error .NoImagesRegisteredError, p)
  else if p.current_image = 0 then (.error .NoImageLeftError, p)
  else (.ok (), { p with current_image := p.current_image - 1 })

/-- `Printer::get_current_image_data`: a `&self` read — no state change and
no generator interaction, visible in the type. -/
def getCurrentImageData (p : Printer) :
    Except PrinterError (List Char × ImageArray) :=
  if p.coloured_images.isEmpty then .error .NoImagesRegisteredError
  else
    let current := p.coloured_images.getD p.current_image dummyImage
    .ok (current.image_name, current.image_array)

/-- `ColouredImage::print`: the first (reveal) draw fails with
`EmptyImageError` on an empty grid, before the one-way rendered flag flips; a
repeat draw never fails.  Terminal IO is the collaborator, assumed to
succeed. -/
def printImage (img : ColouredImage) :
    Except PrinterError Unit × ColouredImage :=
  if img.is_rendered then (.ok (), img)
  else if img.image_array.isEmpty ∨ (img.image_array.headD []).isEmpty then
    (.error .EmptyImageError, img)
  else (.ok (), { img with is_rendered := true })

/-- `self.coloured_images[self.current_image].print()`. -/
def printAtCursor (p : Printer) : Except PrinterError Unit × Printer :=
  let img := p.coloured_images.getD p.current_image dummyImage
  let res := printImage img
  (res.1,
   { p with coloured_images := p.coloured_images.set p.current_image res.2 })

/-- `Printer::print_current_image`. -/
def printCurrentImage (p : Printer) : Except PrinterError Unit × Printer :=
  if p.coloured_images.isEmpty then
    match p.image_generator with
    | d :: rest =>
      printAtCursor (addImageAndSetCurrent { p with image_generator := rest } d)
    | [] => (.error .NoImagesRegisteredError, p)
  else printAtCursor p

/-- `rfind('m')` on a character list: index of the last `'m'`. -/
def rfindM : List Char → Option Nat
  | [] => none
  | c :: rest =>
    match rfindM rest with
    | some i => some (i + 1)
    | none => if c = 'm' then some 0 else none

/-- The per-cell step of `get_clipboard_version`: find the last `'m'` in
`cell[..cell.len() - 2]` and take the character after it.  When the cell has
fewer than two characters, `cell.len() - 2` underflows `usize` and the slice
indexing panics, modelled as `none`.  The source's in-range re-check on the
found index is always true (the search space already excludes the last two
positions), so its error branch is dead.  Cells are modelled at character
granularity; multi-byte boundary panics of byte slicing are not modelled. -/
def clipGlyph (cell : Cell) : Option (Except PrinterError Char) :=
  if cell.length < 2 then none
  else
    match rfindM (cell.take (cell.length - 2)) with
    | some i => some (.ok (cell.getD (i + 1) ' '))
    | none => some (.error .InvalidImageError)

/-- The `try_for_each` over one row's cells in `get_clipboard_version`. -/
def clipRow : List Cell → Option (Except PrinterError (List Char))
  | [] => some (.ok [])
  | cell :: rest =>
    match clipGlyph cell with
    | none => none
    | some (.error e) => some (.error e)
    | some (.ok g) =>
      match clipRow rest with
      | none => none
      | some (.error e) => some (.error e)
      | some (.ok gs) => some (.ok (g :: gs))

/-- All rows of `get_clipboard_version`, each followed by its newline. -/
def clipRows : List (List Cell) → Option (Except PrinterError (List Char))
  | [] => some (.ok [])
  | row :: rows =>
    match clipRow row with
    | none => none
    | some (.error e) => some (.error e)
    | some (.ok gs) =>
      match clipRows rows with
      | none => none
      | some (.error e) => some (.error e)
      | some (.ok rest) => some (.ok (gs ++ '\n' :: rest))

/-- `ColouredImage::get_clipboard_version`: glyph-only rendering, one row per
line, with the final pushed newline popped; the outer `none` is a panic of
the source. -/
def getClipboardVersion (arr : ImageArray) :
    Option (Except PrinterError (List Char)) :=
  if arr.isEmpty ∨ (arr.headD []).isEmpty then some (.error .EmptyImageError)
  else
    match clipRows arr with
    | none => none
    | some (.error e) => some (.error e)
    | some (.ok s) => some (.ok s.dropLast)

/-- `Printer::copy_current_image_to_clipboard`.  The clipboard context and
write are the collaborator, assumed available; the cache state is never
touched, and the outer `none` is a panic inside `get_clipboard_version`. -/
def copyCurrentImageToClipboard (p : Printer) :
    Option (Except PrinterError Unit) × Printer :=
  if p.coloured_images.isEmpty then
    (some (.error .NoImagesRegisteredError), p)
  else
    match getClipboardVersion
        (p.coloured_images.getD p.current_image dummyImage).image_array with
    | none => (none, p)
    | some (.error e) => (some (.error e), p)
    | some (.ok _) => (some (.ok ()), p)

/-- `n` successive `move_to_next_image` calls, stopping at the first error. -/
def advanceN : Nat → Printer → Except PrinterError Unit × Printer
  | 0, p => (.ok (), p)
  | n + 1, p =>
    match moveToNextImage p with
    | (.ok _, q) => advanceN n q
    | (.error e, q) => (.error e, q)

/-- The persistent data of the materialized frames — name and grid, without
the mutable rendered flag. -/
def dataOf (p : Printer) : List (List Char × ImageArray) :=
  p.coloured_images.map (fun c => (c.image_name, c.image_array))

/-- The data one pulled generator item contributes. -/
def dataOfItem (d : PrinterImageData) : List Char × ImageArray :=
  (d.image_name, d.image_array)

/-- Cursor validity: the cursor indexes into the materialized list whenever
any frame exists. -/
def cursorOk (p : Printer) : Prop :=
  p.coloured_images = [] ∨ p.current_image < p.coloured_images.length

/-- A concrete mid-sequence cache state used by witnesses: two materialized
frames, cursor on the second, one item still upstream. -/
def samplePrinter : Printer :=
  ⟨[⟨"b".data, [["y".data]]⟩],
   [⟨[["x".data]], 0, "a".data, false, 0⟩,
    ⟨[["z".data]], 1, "c".data, false, 0⟩],
   1, 0⟩

/-- A small decoded image used by witnesses: 4×3, constant resamples. -/
def smallImage : DecodedImage := ⟨4, 3, fun _ _ _ _ => (7, 7, 7)⟩

/-! ### Lemmas and claim theorems -/

/-- A line with no carriage return is unchanged by the CR stripping of
`BufRead::lines`. -/
theorem stripCR_eq_self {l : List Char} (h : '\r' ∉ l) : stripCR l = l := by
  rw [stripCR, if_neg]
  intro hlast
  obtain ⟨hne, heq⟩ := List.mem_getLast?_eq_getLast (Option.mem_def.2 hlast)
  exact h (heq ▸ List.getLast_mem hne)

/-- Reading lines over a chunk `line ++ '\n' ++ rest` first yields `line`. -/
theorem bufLinesGo_line (line rest acc : List Char) (h : '\n' ∉ line) :
    bufLinesGo (line ++ '\n' :: rest) acc
      = stripCR (acc.reverse ++ line) :: bufLinesGo rest [] := by
  induction line generalizing acc with
  | nil => simp [bufLinesGo]
  | cons c cs ih =>
    have hc : c ≠ '\n' := fun hh => h (hh ▸ List.mem_cons_self c cs)
    have h' : '\n' ∉ cs := fun hm => h (List.mem_cons_of_mem c hm)
    simp [bufLinesGo, hc, ih _ h']

/-- `BufRead::lines` recovers exactly the lines written by a sequence of
`writeln!` calls, provided no written line contains a LF or a CR. -/
theorem bufLines_writeln (lines : List (List Char))
    (h : ∀ l ∈ lines, '\n' ∉ l ∧ '\r' ∉ l) :
    bufLines (lines.foldr (fun line acc => line ++ '\n' :: acc) []) = lines := by
  induction lines with
  | nil => rfl
  | cons l ls ih =>
    have hl := h l (List.mem_cons_self l ls)
    rw [List.foldr_cons, bufLines, bufLinesGo_line _ _ _ hl.1]
    rw [List.reverse_nil, List.nil_append, stripCR_eq_self hl.2]
    rw [← bufLines, ih (fun x hx => h x (List.mem_cons_of_mem l hx))]

/-- Every character of a joined row is either the separator or a character of
one of the row's cells. -/
theorem mem_rowToLine {x : Char} : ∀ {row : List Cell}, x ∈ rowToLine row →
    x = CELL_SEPARATOR ∨ ∃ cell ∈ row, x ∈ cell
  | [], h => absurd h (List.not_mem_nil x)
  | [cell], h => Or.inr ⟨cell, List.mem_cons_self cell [], h⟩
  | cell :: next :: rest, h => by
    rw [rowToLine] at h
    rcases List.mem_append.1 h with h1 | h2
    · exact Or.inr ⟨cell, List.mem_cons_self cell (next :: rest), h1⟩
    · rcases List.mem_cons.1 h2 with rfl | h3
      · exact Or.inl rfl
      · rcases mem_rowToLine h3 with hs | ⟨c, hc, hx⟩
        · exact Or.inl hs
        · exact Or.inr ⟨c, List.mem_cons_of_mem _ hc, hx⟩

/-- Splitting on the cell separator undoes `join(" ")` for a nonempty row
none of whose cells contains a space. -/
theorem splitCells_rowToLine : ∀ (row : List Cell), row ≠ [] →
    (∀ cell ∈ row, ' ' ∉ cell) → splitCells (rowToLine row) = row
  | [], hne, _ => absurd rfl hne
  | [cell], _, h => by
    have hc := h cell (List.mem_cons_self cell [])
    simp only [rowToLine, splitCells, List.splitOn, CELL_SEPARATOR]
    exact List.splitOnP_eq_single _ _
      (fun x hx hbeq => hc (by rw [show x = ' ' from eq_of_beq hbeq] at hx; exact hx))
  | cell :: next :: rest, _, h => by
    have hc := h cell (List.mem_cons_self cell (next :: rest))
    have hnp : ∀ x ∈ cell, ¬((x == ' ') = true) := fun x hx hbeq =>
      hc (by rw [show x = ' ' from eq_of_beq hbeq] at hx; exact hx)
    have ih := splitCells_rowToLine (next :: rest) (List.cons_ne_nil next rest)
      (fun c hcm => h c (List.mem_cons_of_mem _ hcm))
    simp only [splitCells, List.splitOn, CELL_SEPARATOR] at ih ⊢
    simp only [rowToLine, CELL_SEPARATOR]
    rw [List.splitOnP_first (fun x => x == ' ') cell hnp ' '
      (beq_self_eq_true ' ') (rowToLine (next :: rest)), ih]

/-- A joined row passes the width check of `load_image` and is split back
into the original cells. -/
theorem loadRow_rowToLine (path : List Char) (row : List Cell) (L : Nat)
    (hne : row ≠ []) (hlen : row.length = L) (h : ∀ cell ∈ row, ' ' ∉ cell) :
    loadRow path L (rowToLine row) = .ok row := by
  simp [loadRow, splitCells_rowToLine row hne h, hlen]

/-- Collecting the checked lines of a list of joined rows of the expected
width succeeds and returns the original rows. -/
theorem collectRows_rowToLine (path : List Char) (L : Nat) :
    ∀ (rows : List (List Cell)),
    (∀ row ∈ rows, row ≠ [] ∧ row.length = L ∧ ∀ cell ∈ row, ' ' ∉ cell) →
    collectRows path L (rows.map rowToLine) = .ok rows
  | [], _ => rfl
  | r :: rs, h => by
    obtain ⟨h1, h2, h3⟩ := h r (List.mem_cons_self r rs)
    rw [List.map_cons, collectRows, loadRow_rowToLine path r L h1 h2 h3,
      collectRows_rowToLine path L rs
        (fun row hrm => h row (List.mem_cons_of_mem _ hrm))]

/-- Collecting lines that all split to the expected width succeeds and
returns the split of each line, in delivery order. -/
theorem collectRows_ok_of_widths (path : List Char) (L : Nat) :
    ∀ lines : List (List Char),
    (∀ l ∈ lines, (splitCells l).length = L) →
    collectRows path L lines = .ok (lines.map splitCells)
  | [], _ => rfl
  | l :: ls, h => by
    have hl := h l (List.mem_cons_self l ls)
    rw [List.map_cons, collectRows, loadRow]
    simp only [hl, ne_eq, not_true_eq_false, if_false,
      collectRows_ok_of_widths path L ls
        (fun x hx => h x (List.mem_cons_of_mem _ hx))]

/-- C1 (amended): round trip through the storage codec — for every frame with
at least one row, all rows of equal positive cell count, and no cell token
containing a space, LF or CR character, loading the file content produced by
`save_image` succeeds under *every* delivery order of the `par_bridge` row
collection (which does not promise source order) and yields a frame with the
same first row, the same row count, every row carrying the first row's cell
count, and whose rows after the first are a permutation of the original's
rows after the first; for a frame with at most two rows the loaded frame is
identical to the original under every delivery order. -/
theorem round_trip_storage_codec (arr : ImageArray) (path fileName : List Char)
    (delivered : List (List Char))
    (hne : arr ≠ [])
    (hwidth : ∀ row ∈ arr, row.length = (arr.headD []).length)
    (hpos : arr.headD [] ≠ [])
    (hcells : ∀ row ∈ arr, ∀ cell ∈ row,
      ' ' ∉ cell ∧ '\n' ∉ cell ∧ '\r' ∉ cell)
    (hdel : delivered.Perm ((bufLines (saveContent arr)).drop 1)) :
    (∃ rest' : List (List Cell),
      rest'.Perm (arr.drop 1)
      ∧ (arr.headD [] :: rest').length = arr.length
      ∧ (∀ row ∈ arr.headD [] :: rest',
          row ∈ arr ∧ row.length = (arr.headD []).length)
      ∧ load_image_par path fileName
          ((bufLines (saveContent arr)).headD []) delivered
          = .ok ⟨fileName, arr.headD [] :: rest'⟩)
    ∧ (arr.length ≤ 2 →
        load_image_par path fileName
          ((bufLines (saveContent arr)).headD []) delivered
          = .ok ⟨fileName, arr⟩) := by
  obtain ⟨first, rest, rfl⟩ := List.exists_cons_of_ne_nil hne
  simp only [List.headD_cons] at hwidth hpos ⊢
  have hrow_ne : ∀ row ∈ first :: rest, row ≠ [] := by
    intro row hr hrnil
    have hlen := hwidth row hr
    rw [hrnil] at hlen
    exact hpos (List.eq_nil_of_length_eq_zero hlen.symm)
  have hlines : ∀ l ∈ (first :: rest).map rowToLine, '\n' ∉ l ∧ '\r' ∉ l := by
    intro l hl
    obtain ⟨row, hrow, rfl⟩ := List.mem_map.1 hl
    refine ⟨fun hx => ?_, fun hx => ?_⟩
    · rcases mem_rowToLine hx with hs | ⟨c, hc, hxc⟩
      · exact absurd hs (by decide)
      · exact (hcells row hrow c hc).2.1 hxc
    · rcases mem_rowToLine hx with hs | ⟨c, hc, hxc⟩
      · exact absurd hs (by decide)
      · exact (hcells row hrow c hc).2.2 hxc
  have hbuf : bufLines (saveContent (first :: rest))
      = rowToLine first :: rest.map rowToLine := by
    rw [saveContent, bufLines_writeln _ hlines, List.map_cons]
  rw [hbuf] at hdel ⊢
  rw [List.drop_succ_cons, List.drop_zero] at hdel
  simp only [List.headD_cons]
  have hsplit_first : splitCells (rowToLine first) = first :=
    splitCells_rowToLine first (hrow_ne first (List.mem_cons_self first rest))
      (fun c hc => (hcells first (List.mem_cons_self first rest) c hc).1)
  have hmem : ∀ l ∈ delivered, ∃ row ∈ rest, l = rowToLine row := by
    intro l hl
    obtain ⟨row, hrow, hEq⟩ := List.mem_map.1 (hdel.mem_iff.1 hl)
    exact ⟨row, hrow, hEq.symm⟩
  have hwid : ∀ l ∈ delivered, (splitCells l).length = first.length := by
    intro l hl
    obtain ⟨row, hrowm, rfl⟩ := hmem l hl
    rw [splitCells_rowToLine row (hrow_ne row (List.mem_cons_of_mem _ hrowm))
      (fun c hc => (hcells row (List.mem_cons_of_mem _ hrowm) c hc).1)]
    exact hwidth row (List.mem_cons_of_mem _ hrowm)
  have hmap_eq : (rest.map rowToLine).map splitCells = rest := by
    rw [List.map_map]
    have hpt : ∀ row ∈ rest, (splitCells ∘ rowToLine) row = row :=
      fun row hr =>
        splitCells_rowToLine row (hrow_ne row (List.mem_cons_of_mem _ hr))
          (fun c hc => (hcells row (List.mem_cons_of_mem _ hr) c hc).1)
    rw [List.map_congr_left hpt]
    simp
  have hperm' : (delivered.map splitCells).Perm rest := by
    have hpm := hdel.map splitCells
    rwa [hmap_eq] at hpm
  have hload : load_image_par path fileName (rowToLine first) delivered
      = .ok ⟨fileName, first :: delivered.map splitCells⟩ := by
    simp only [load_image_par, hsplit_first,
      collectRows_ok_of_widths path first.length delivered hwid]
  constructor
  · refine ⟨delivered.map splitCells, hperm', by simp [hperm'.length_eq],
      ?_, hload⟩
    intro row hrow
    rcases List.mem_cons.1 hrow with rfl | hrm
    · exact ⟨List.mem_cons_self _ _, rfl⟩
    · have hrr : row ∈ rest := hperm'.mem_iff.1 hrm
      exact ⟨List.mem_cons_of_mem _ hrr,
        hwidth row (List.mem_cons_of_mem _ hrr)⟩
  · intro hlen2
    have hr1 : rest.length ≤ 1 := by
      simp only [List.length_cons] at hlen2
      omega
    have hdeq : delivered = rest.map rowToLine := by
      cases rest with
      | nil => simpa using hdel
      | cons r rs =>
        cases rs with
        | nil => exact List.perm_singleton.1 hdel
        | cons r' rs' => simp at hr1
    rw [hdeq] at hload
    rw [hdeq, hload, hmap_eq]

/-- Witness for the amended round trip at a concrete 2×2 frame, whose single
delivered line is also the only permutation: the loaded frame is identical. -/
theorem round_trip_storage_codec_witness :
    load_image_par "p".data "n".data
        ((bufLines (saveContent
          [["ab".data, "cd".data], ["ef".data, "gh".data]])).headD [])
        ["ef gh".data]
      = .ok ⟨"n".data, [["ab".data, "cd".data], ["ef".data, "gh".data]]⟩ :=
  (round_trip_storage_codec [["ab".data, "cd".data], ["ef".data, "gh".data]]
    "p".data "n".data ["ef gh".data] (by decide) (by decide) (by decide)
    (by decide) (by decide)).2 (by decide)

/-- C1 counterexample: the claim fails as stated.  A frame whose single cell
is the white cell token (whose glyph is a space) does not survive the round
trip: the space inside the styled token is taken as a cell separator on load,
so the loaded row has two cell tokens instead of one. -/
theorem round_trip_storage_codec_cex :
    load_image "f.cwi".data "f.cwi".data
        (bufLines (saveContent [[spaceCellWhite]]))
      = .ok ⟨"f.cwi".data, [[whiteTagChars, resetChars]]⟩
    ∧ [[whiteTagChars, resetChars]] ≠ [[spaceCellWhite]] := by decide

/-- The surfacing iterator never aborts enumeration: it yields exactly one
item per candidate file, in walk order, each the `load_image` of that file's
lines. -/
theorem loadAll_eq_map : ∀ entries : List DirResult,
    loadAll entries
      = (candidates entries).map
          (fun nc => load_image nc.1 nc.1 (bufLines nc.2))
  | [] => rfl
  | .errEntry :: rest => by
    simp only [loadAll, candidates]
    exact loadAll_eq_map rest
  | .okEntry name ext content :: rest => by
    simp only [loadAll, candidates]
    by_cases hx : ext = some IMAGE_EXTENSION
    · simp [if_pos hx, loadAll_eq_map rest]
    · simp [if_neg hx, loadAll_eq_map rest]

/-- A file in which some later row's cell count differs from the first row's
cell count fails with `LoadError` for exactly that file's path. -/
theorem load_image_mismatch (path fileName first : List Char)
    (rest : List (List Char))
    (h : ∃ line ∈ rest, (splitCells line).length ≠ (splitCells first).length) :
    load_image path fileName (first :: rest) = .error (.LoadError path) := by
  suffices hcr : ∀ lines : List (List Char),
      (∃ l ∈ lines, (splitCells l).length ≠ (splitCells first).length) →
      collectRows path (splitCells first).length lines
        = .error (.LoadError path) by
    simp only [load_image, hcr rest h]
  intro lines
  induction lines with
  | nil =>
    intro hex
    obtain ⟨l, hl, _⟩ := hex
    exact absurd hl (List.not_mem_nil l)
  | cons a as ih =>
    intro hex
    obtain ⟨l, hl, hlen⟩ := hex
    rcases List.mem_cons.1 hl with rfl | hmem2
    · simp [collectRows, loadRow, hlen]
    · by_cases hba : (splitCells a).length ≠ (splitCells first).length
      · simp [collectRows, loadRow, hba]
      · simp [collectRows, loadRow, hba, ih ⟨l, hmem2, hlen⟩]

/-- The filtering iterator yields exactly the successes of the same walk. -/
theorem validAll_eq_filterMap : ∀ entries : List DirResult,
    validAll entries = (loadAll entries).filterMap Except.toOption
  | [] => rfl
  | .errEntry :: rest => by
    simp only [validAll, loadAll]
    exact validAll_eq_filterMap rest
  | .okEntry name ext content :: rest => by
    simp only [validAll, loadAll]
    by_cases hx : ext = some IMAGE_EXTENSION
    · simp only [if_pos hx]
      cases hli : load_image name name (bufLines content) with
      | ok img =>
        simp [List.filterMap_cons, Except.toOption, validAll_eq_filterMap rest]
      | error e =>
        simp [List.filterMap_cons, Except.toOption, validAll_eq_filterMap rest]
    · simp only [if_neg hx]
      exact validAll_eq_filterMap rest

/-- C5: per-file fault isolation on load.  Over any directory walk, the
error-surfacing iterator yields one item per candidate file (a corrupt file
never aborts enumeration, every other loadable file is still yielded); a
file with a row whose cell count differs from the first row's fails with
`LoadError` for exactly that file; and the filtering iterator yields exactly
the successfully loaded frames, dropping the failures. -/
theorem per_file_fault_isolation :
    (∀ entries : List DirResult,
      loadAll entries
        = (candidates entries).map
            (fun nc => load_image nc.1 nc.1 (bufLines nc.2)))
    ∧ (∀ (path fileName first : List Char) (rest : List (List Char)),
        (∃ line ∈ rest,
          (splitCells line).length ≠ (splitCells first).length) →
        load_image path fileName (first :: rest) = .error (.LoadError path))
    ∧ (∀ entries : List DirResult,
        validAll entries = (loadAll entries).filterMap Except.toOption) :=
  ⟨loadAll_eq_map, load_image_mismatch, validAll_eq_filterMap⟩

/-- Witness for C5: the corrupt two-line file of the spec's scenario fails
with its own `LoadError`. -/
theorem per_file_fault_isolation_witness :
    load_image "b.cwi".data "b.cwi".data ("x y".data :: ["z".data])
      = .error (.LoadError "b.cwi".data) :=
  per_file_fault_isolation.2.1 "b.cwi".data "b.cwi".data "x y".data
    ["z".data] ⟨"z".data, by decide, by decide⟩

/-- C4: the claim fails on the code.  `convert_image` runs
`image::load_from_memory(&image_bytes).expect(..)`: on bytes that are not a
recognizable image it panics (the outer `none`) instead of producing a
skippable per-item error value — indeed `ConverterError` has no
decode-failure variant at all, so no such value even exists. -/
theorem convert_panics_on_undecodable_bytes :
    (∀ image_width : Nat, convert_image none image_width = none)
    ∧ ∀ e : ConverterError,
        e = ConverterError.NoImageLeftError
          ∨ e = ConverterError.NoImagesRegisteredError := by
  refine ⟨fun _ => rfl, fun e => ?_⟩
  cases e
  · exact Or.inl rfl
  · exact Or.inr rfl

/-- C6: the claim fails on the code.  When the first candidate
`<ts>_<name>.cwi` already exists, the retry joins the regenerated file name
onto the previous full *file* path, so the file is created at
`<dir>/<ts1>_<name>.cwi/<ts2>_<name>.cwi` — not at a fresh path in the same
directory — while the returned name stays the first candidate, which is not
the name of the path actually written. -/
theorem save_collision_divergence :
    save_image collisionEnv 5 "d".data "img".data
      = some ⟨["d".data, get_image_name 100 "img".data,
               get_image_name 101 "img".data],
              get_image_name 100 "img".data⟩
    ∧ ["d".data, get_image_name 100 "img".data, get_image_name 101 "img".data]
        ≠ ["d".data, get_image_name 101 "img".data]
    ∧ get_image_name 100 "img".data ≠ get_image_name 101 "img".data := by
  decide

/-- C9: the claim fails on the code.  A frame loaded from an artifact whose
content is a single empty line has one empty-string cell; on it
`get_clipboard_version` evaluates `cell.len() - 2`, the `usize` subtraction
underflows and the slice indexing panics (the `none`) instead of returning
the `InvalidImageError` value. -/
theorem clipboard_panics_on_loaded_frame :
    load_image "a.cwi".data "a.cwi".data (bufLines ['\n'])
      = .ok ⟨"a.cwi".data, [[[]]]⟩
    ∧ getClipboardVersion [[[]]] = none := by decide

/-- C7 (amended): for every decoded image with positive dimensions and every
target width `W` such that `orig_h * W < 2^32` (the `u32` product does not
wrap), the converted frame has at least one row, its row count is
`max 1 (orig_h * W / orig_w)` with integer (floor) division, and every row
has exactly `W` cells. -/
theorem converted_frame_dimensions (img : DecodedImage) (W : Nat)
    (_hw : 0 < img.width) (_hh : 0 < img.height)
    (hfit : img.height * W < U32_MOD) :
    convert_image_decoded img W ≠ []
    ∧ (convert_image_decoded img W).length
        = Nat.max 1 (img.height * W / img.width)
    ∧ ∀ row ∈ convert_image_decoded img W, row.length = W := by
  have hmod : img.height * W % U32_MOD = img.height * W := Nat.mod_eq_of_lt hfit
  refine ⟨?_, ?_, ?_⟩
  · intro hnil
    have hlen : (convert_image_decoded img W).length = 0 := by rw [hnil]; rfl
    simp [convert_image_decoded, convertLoop, targetHeight] at hlen
  · simp [convert_image_decoded, convertLoop, targetHeight, hmod]
  · intro row hr
    simp only [convert_image_decoded, convertLoop, List.mem_map] at hr
    obtain ⟨y, _, rfl⟩ := hr
    simp

/-- C7 counterexample: with `orig_w = 3`, `orig_h = 65536`, `W = 65536` the
`u32` product `orig_h * W` wraps to 0, so the code yields `max 1 0 = 1` row,
while the claimed `max 1 (floor (orig_h * W / orig_w))` is 1431655765. -/
theorem converted_frame_dimensions_cex :
    (convert_image_decoded bigImage 65536).length = 1
    ∧ Nat.max 1 (bigImage.height * 65536 / bigImage.width) = 1431655765
    ∧ (1 : Nat) ≠ 1431655765 := by
  refine ⟨?_, by norm_num [bigImage], by norm_num⟩
  simp only [convert_image_decoded, convertLoop, targetHeight, U32_MOD,
    bigImage, List.length_map, List.length_range]
  norm_num

/-- Witness for C7 at the concrete 4×3 image converted to width 8. -/
theorem converted_frame_dimensions_witness :
    (convert_image_decoded smallImage 8).length
      = Nat.max 1 (smallImage.height * 8 / smallImage.width) :=
  (converted_frame_dimensions smallImage 8 (by decide) (by decide)
    (by decide)).2.1

/-- C8: for channels at most 255, the glyph index is
`(brightness * (N - 1) + 127) / 255` with `brightness = (r + g + b) / 3` and
`N = 13` the palette length; the index is always in range; the cell is the
foreground colour tag followed by that palette glyph (and the reset); and the
white pixel selects the last — lightest — glyph, the space. -/
theorem pixel_to_glyph_mapping (r g b : Nat)
    (hr : r ≤ 255) (hg : g ≤ 255) (hb : b ≤ 255) :
    ASCII_CHARS.length = 13
    ∧ charIndexOf r g b = ((r + g + b) / 3 * (13 - 1) + 127) / 255
    ∧ charIndexOf r g b < ASCII_CHARS.length
    ∧ buildCell r g b
        = fgTag r g b ++ ASCII_CHARS.getD (charIndexOf r g b) '@' :: resetChars
    ∧ charIndexOf 255 255 255 = ASCII_CHARS.length - 1
    ∧ ASCII_CHARS.getD (ASCII_CHARS.length - 1) '@' = ' ' := by
  refine ⟨by decide, ?_, ?_, rfl, by decide, by decide⟩
  · norm_num [charIndexOf, brightnessOf, ASCII_CHARS]
  · have h13 : ASCII_CHARS.length = 13 := by decide
    rw [h13]
    simp only [charIndexOf, brightnessOf, h13]
    omega

/-- Witness for C8 at the concrete pixel (10, 200, 30). -/
theorem pixel_to_glyph_mapping_witness :
    ASCII_CHARS.length = 13
    ∧ charIndexOf 10 200 30 = ((10 + 200 + 30) / 3 * (13 - 1) + 127) / 255
    ∧ charIndexOf 10 200 30 < ASCII_CHARS.length
    ∧ buildCell 10 200 30
        = fgTag 10 200 30
          ++ ASCII_CHARS.getD (charIndexOf 10 200 30) '@' :: resetChars
    ∧ charIndexOf 255 255 255 = ASCII_CHARS.length - 1
    ∧ ASCII_CHARS.getD (ASCII_CHARS.length - 1) '@' = ' ' :=
  pixel_to_glyph_mapping 10 200 30 (by decide) (by decide) (by decide)

/-- A successful first advance lets `advanceN` continue from the new state. -/
theorem advanceN_succ_ok {p q : Printer}
    (h : moveToNextImage p = (.ok (), q)) (n : Nat) :
    advanceN (n + 1) p = advanceN n q := by
  rw [advanceN, h]

/-- A failing first advance stops `advanceN` at once. -/
theorem advanceN_succ_err {p q : Printer} {e : PrinterError}
    (h : moveToNextImage p = (.error e, q)) (n : Nat) :
    advanceN (n + 1) p = (.error e, q) := by
  rw [advanceN, h]

/-- The last step of a run of advances can be split off at the end. -/
theorem advanceN_succ_right (n : Nat) (p : Printer) :
    advanceN (n + 1) p
      = match advanceN n p with
        | (.ok _, q) => moveToNextImage q
        | (.error e, q) => (.error e, q) := by
  induction n generalizing p with
  | zero =>
    rcases hmv : moveToNextImage p with ⟨r, q⟩
    cases r with
    | ok u => cases u; rw [advanceN_succ_ok hmv 0]; simp [advanceN, hmv]
    | error e => rw [advanceN_succ_err hmv 0]; simp [advanceN, hmv]
  | succ m ih =>
    rcases hmv : moveToNextImage p with ⟨r, q⟩
    cases r with
    | ok u =>
      cases u
      rw [advanceN_succ_ok hmv (m + 1), ih q, advanceN_succ_ok hmv m]
    | error e =>
      rw [advanceN_succ_err hmv (m + 1), advanceN_succ_err hmv m]

/-- State after `k ∈ [1, K]` advances from a fresh printer over `items`: all
succeed, `k` frames are materialized, the cursor sits on the `k`-th and the
generator still holds the remaining items. -/
theorem advanceN_state (items : List PrinterImageData) (rate : Nat) :
    ∀ k, 1 ≤ k → k ≤ items.length →
    ∃ imgs : List ColouredImage, imgs.length = k ∧
      advanceN k (Printer.new items rate)
        = (.ok (), ⟨items.drop k, imgs, k - 1, rate⟩) := by
  intro k
  induction k with
  | zero => intro h1 _; exact absurd h1 (by omega)
  | succ n ih =>
    intro _ h2
    by_cases hn0 : n = 0
    · subst hn0
      cases items with
      | nil => simp at h2
      | cons d rest =>
        exact ⟨[⟨d.image_array, 0, d.image_name, false, rate⟩], rfl, rfl⟩
    · have hn1 : 1 ≤ n := by omega
      obtain ⟨imgs, hlen, heq⟩ := ih hn1 (by omega)
      have hne : imgs ≠ [] := by
        intro hni; rw [hni] at hlen; exact hn0 hlen.symm
      have himgs : imgs.isEmpty = false := by
        cases imgs
        · exact absurd rfl hne
        · rfl
      have hdne : items.drop n ≠ [] := by
        intro hd
        have hdl := congrArg List.length hd
        rw [List.length_drop] at hdl
        simp at hdl
        omega
      obtain ⟨d', rest', hgen⟩ := List.exists_cons_of_ne_nil hdne
      have hrest' : items.drop (n + 1) = rest' := by
        rw [← List.drop_drop 1 n items, hgen]
        rfl
      have hcond : ¬(n - 1 < imgs.length - 1) := by omega
      have hstep : moveToNextImage ⟨items.drop n, imgs, n - 1, rate⟩
          = (.ok (), ⟨rest',
              imgs ++ [⟨d'.image_array, imgs.length, d'.image_name, false,
                rate⟩],
              imgs.length, rate⟩) := by
        simp [moveToNextImage, himgs, hgen, if_neg hcond,
          addImageAndSetCurrent]
      refine ⟨imgs
          ++ [⟨d'.image_array, imgs.length, d'.image_name, false, rate⟩],
        by simp [hlen], ?_⟩
      rw [advanceN_succ_right n (Printer.new items rate), heq]
      show moveToNextImage ⟨items.drop n, imgs, n - 1, rate⟩ = _
      rw [hstep, hrest', hlen]
      simp

/-- C2 (amended): on a cache with no materialized frames, retreat fails with
`NoImagesRegisteredError` (`NoFramesYet`); after one successful advance,
retreat fails with `NoImageLeftError` (`CursorAtStart`); and for an upstream
source yielding exactly `K ≥ 1` items, the first `K` advances succeed while
the `(K+1)`-th fails with `NoImageLeftError` (`EndOfSequence`), leaving the
materialized list and cursor unchanged.  (For `K = 0` the first advance
instead fails with `NoImagesRegisteredError`, also leaving the state
unchanged.) -/
theorem navigation_error_contract :
    (∀ p : Printer, p.coloured_images = [] →
      moveToPreviousImage p = (.error .NoImagesRegisteredError, p))
    ∧ (∀ p : Printer, p.coloured_images = [] →
      (moveToNextImage p).1 = .ok () →
      moveToPreviousImage (moveToNextImage p).2
        = (.error .NoImageLeftError, (moveToNextImage p).2))
    ∧ ∀ (items : List PrinterImageData) (rate : Nat), items ≠ [] →
        (∀ k, k ≤ items.length →
          (advanceN k (Printer.new items rate)).1 = .ok ())
        ∧ (advanceN (items.length + 1) (Printer.new items rate)).1
            = .error .NoImageLeftError
        ∧ (advanceN (items.length + 1) (Printer.new items rate)).2
            = (advanceN items.length (Printer.new items rate)).2 := by
  refine ⟨?_, ?_, ?_⟩
  · intro p h
    simp [moveToPreviousImage, h]
  · intro p h hok
    cases hg : p.image_generator with
    | nil => simp [moveToNextImage, h, hg] at hok
    | cons d rest =>
      simp [moveToNextImage, moveToPreviousImage, addImageAndSetCurrent,
        h, hg]
  · intro items rate hne
    have hlen1 : 1 ≤ items.length := List.length_pos.2 hne
    obtain ⟨imgs, hlen, heq⟩ :=
      advanceN_state items rate items.length hlen1 le_rfl
    have himgs : imgs.isEmpty = false := by
      cases imgs
      · rw [List.length_nil] at hlen; exact absurd hlen.symm (by omega)
      · rfl
    have hcond : ¬(items.length - 1 < imgs.length - 1) := by omega
    have hstep : moveToNextImage
        ⟨items.drop items.length, imgs, items.length - 1, rate⟩
          = (.error .NoImageLeftError,
             ⟨items.drop items.length, imgs, items.length - 1, rate⟩) := by
      simp [moveToNextImage, himgs, if_neg hcond, List.drop_length]
    refine ⟨?_, ?_, ?_⟩
    · intro k hk
      cases k with
      | zero => rfl
      | succ m =>
        obtain ⟨imgs', _, heq'⟩ :=
          advanceN_state items rate (m + 1) (by omega) hk
        rw [heq']
    · rw [advanceN_succ_right items.length (Printer.new items rate), heq]
      show (moveToNextImage
        ⟨items.drop items.length, imgs, items.length - 1, rate⟩).1 = _
      rw [hstep]
    · rw [advanceN_succ_right items.length (Printer.new items rate), heq]
      show (moveToNextImage
        ⟨items.drop items.length, imgs, items.length - 1, rate⟩).2 = _
      rw [hstep]

/-- C2 counterexample: for a source yielding exactly `K = 0` items, the
`(K+1)`-th (first) advance fails with `NoImagesRegisteredError` — the error
the claim calls `NoFramesYet` — not with the `NoImageLeftError` that plays
`EndOfSequence`. -/
theorem navigation_error_contract_cex :
    (moveToNextImage (Printer.new [] 0)).1
      = .error PrinterError.NoImagesRegisteredError
    ∧ PrinterError.NoImagesRegisteredError
        ≠ PrinterError.NoImageLeftError := by decide

/-- Witness for C2 with a one-item source: the first advance succeeds and
the second fails with `NoImageLeftError`. -/
theorem navigation_error_contract_witness :
    (advanceN 1 (Printer.new [⟨"a".data, [["x".data]]⟩] 0)).1 = .ok ()
    ∧ (advanceN 2 (Printer.new [⟨"a".data, [["x".data]]⟩] 0)).1
        = .error PrinterError.NoImageLeftError :=
  ⟨(navigation_error_contract.2.2 [⟨"a".data, [["x".data]]⟩] 0
      (by decide)).1 1 (by decide),
   (navigation_error_contract.2.2 [⟨"a".data, [["x".data]]⟩] 0
      (by decide)).2.1⟩

/-- `isEmpty` characterization used throughout the printer proofs. -/
theorem isEmpty_true_iff {α : Type} {l : List α} : l.isEmpty = true ↔ l = [] := by
  cases l <;> simp

/-- `ColouredImage::print` never changes the frame's name or grid, only the
rendered flag. -/
theorem printImage_fields (img : ColouredImage) :
    (printImage img).2.image_name = img.image_name
    ∧ (printImage img).2.image_array = img.image_array := by
  unfold printImage
  split_ifs <;> exact ⟨rfl, rfl⟩

/-- Overwriting position `i` with an element equal under `f` to the one read
from position `i` leaves the `f`-image of the list unchanged. -/
theorem map_set_eq {β : Type} (f : ColouredImage → β) :
    ∀ (l : List ColouredImage) (i : Nat) (x : ColouredImage),
    f x = f (l.getD i dummyImage) → (l.set i x).map f = l.map f
  | [], _, _, _ => rfl
  | a :: as, 0, x, h => by
    have hfa : f x = f a := by simpa using h
    simp [hfa]
  | a :: as, j + 1, x, h => by
    have h' : f x = f (as.getD j dummyImage) := by simpa using h
    simp [map_set_eq f as j x h']

/-- `print` on the cursor element: the generator, the frame data, the list
length and the cursor are all unchanged. -/
theorem printAtCursor_state (p : Printer) :
    (printAtCursor p).2.image_generator = p.image_generator
    ∧ dataOf (printAtCursor p).2 = dataOf p
    ∧ (printAtCursor p).2.coloured_images.length = p.coloured_images.length
    ∧ (printAtCursor p).2.current_image = p.current_image := by
  refine ⟨rfl, ?_, by simp [printAtCursor], rfl⟩
  show ((p.coloured_images.set p.current_image
      (printImage (p.coloured_images.getD p.current_image dummyImage)).2).map
        (fun c => (c.image_name, c.image_array)))
    = p.coloured_images.map (fun c => (c.image_name, c.image_array))
  apply map_set_eq
  have hf := printImage_fields (p.coloured_images.getD p.current_image dummyImage)
  show ((printImage (p.coloured_images.getD p.current_image dummyImage)).2.image_name,
        (printImage (p.coloured_images.getD p.current_image dummyImage)).2.image_array)
      = ((p.coloured_images.getD p.current_image dummyImage).image_name,
         (p.coloured_images.getD p.current_image dummyImage).image_array)
  rw [hf.1, hf.2]

/-- `print` on the cursor element preserves cursor validity. -/
theorem printAtCursor_cursor (p : Printer) (h : cursorOk p) :
    cursorOk (printAtCursor p).2 := by
  rcases h with h | h
  · left
    simp [printAtCursor, h]
  · right
    rw [(printAtCursor_state p).2.2.1, (printAtCursor_state p).2.2.2]
    exact h

/-- Advance pulls at most one upstream element, appends exactly the pulled
data at the end, and never reorders. -/
theorem moveToNext_pull (p : Printer) :
    ∃ k ≤ 1,
      (moveToNextImage p).2.image_generator = p.image_generator.drop k
      ∧ dataOf (moveToNextImage p).2
          = dataOf p ++ (p.image_generator.take k).map dataOfItem := by
  by_cases hemp : p.coloured_images.isEmpty = true
  · rcases hg : p.image_generator with _ | ⟨d, rest⟩
    · exact ⟨0, by omega, by simp [moveToNextImage, hemp, hg],
        by simp [moveToNextImage, hemp, hg]⟩
    · refine ⟨1, le_rfl, ?_, ?_⟩
      · simp [moveToNextImage, hemp, hg, addImageAndSetCurrent]
      · simp [moveToNextImage, hemp, hg, addImageAndSetCurrent, dataOf,
          dataOfItem]
  · by_cases hc : p.current_image < p.coloured_images.length - 1
    · exact ⟨0, by omega, by simp [moveToNextImage, hemp, hc],
        by simp [moveToNextImage, hemp, hc, dataOf]⟩
    · rcases hg : p.image_generator with _ | ⟨d, rest⟩
      · exact ⟨0, by omega, by simp [moveToNextImage, hemp, hc, hg],
          by simp [moveToNextImage, hemp, hc, hg]⟩
      · refine ⟨1, le_rfl, ?_, ?_⟩
        · simp [moveToNextImage, hemp, hc, hg, addImageAndSetCurrent]
        · simp [moveToNextImage, hemp, hc, hg, addImageAndSetCurrent,
            dataOf, dataOfItem]

/-- Advance preserves cursor validity. -/
theorem moveToNext_cursor (p : Printer) (h : cursorOk p) :
    cursorOk (moveToNextImage p).2 := by
  by_cases hemp : p.coloured_images.isEmpty = true
  · have hl : p.coloured_images = [] := isEmpty_true_iff.1 hemp
    rcases hg : p.image_generator with _ | ⟨d, rest⟩
    · simp only [moveToNextImage, hemp, hg, if_pos]
      exact h
    · right
      simp [moveToNextImage, hemp, hg, addImageAndSetCurrent, hl]
  · have hln : p.coloured_images ≠ [] := fun hn => by simp [hn] at hemp
    have hl0 : p.coloured_images.length ≠ 0 := fun hn =>
      hln (List.eq_nil_of_length_eq_zero hn)
    by_cases hc : p.current_image < p.coloured_images.length - 1
    · right
      simp only [moveToNextImage, hemp, hc]
      simp only [Bool.false_eq_true, if_false, if_pos hc]
      show p.current_image + 1 < p.coloured_images.length
      omega
    · rcases hg : p.image_generator with _ | ⟨d, rest⟩
      · simp only [moveToNextImage, hemp, hc, hg]
        simpa using h
      · right
        simp [moveToNextImage, hemp, hc, hg, addImageAndSetCurrent]

/-- Retreat never touches the generator or the materialized list. -/
theorem moveToPrev_state (p : Printer) :
    (moveToPreviousImage p).2.image_generator = p.image_generator
    ∧ dataOf (moveToPreviousImage p).2 = dataOf p
    ∧ (moveToPreviousImage p).2.coloured_images = p.coloured_images := by
  by_cases hemp : p.coloured_images.isEmpty = true
  · simp [moveToPreviousImage, hemp]
  · by_cases hz : p.current_image = 0
    · simp [moveToPreviousImage, hemp, hz]
    · simp [moveToPreviousImage, hemp, hz, dataOf]

/-- Retreat preserves cursor validity. -/
theorem moveToPrev_cursor (p : Printer) (h : cursorOk p) :
    cursorOk (moveToPreviousImage p).2 := by
  by_cases hemp : p.coloured_images.isEmpty = true
  · simp only [moveToPreviousImage, hemp, if_pos]
    exact h
  · by_cases hz : p.current_image = 0
    · simp only [moveToPreviousImage, hemp, hz]
      simpa using h
    · have hln : p.coloured_images ≠ [] := fun hn => by simp [hn] at hemp
      rcases h with h | h
      · exact absurd h hln
      · right
        simp only [moveToPreviousImage, hemp, hz]
        simp only [Bool.false_eq_true, if_false, if_neg hz]
        show p.current_image - 1 < p.coloured_images.length
        omega

/-- Rendering the current frame pulls at most one upstream element, appends
exactly the pulled data at the end, and never reorders. -/
theorem printCur_pull (p : Printer) :
    ∃ k ≤ 1,
      (printCurrentImage p).2.image_generator = p.image_generator.drop k
      ∧ dataOf (printCurrentImage p).2
          = dataOf p ++ (p.image_generator.take k).map dataOfItem := by
  by_cases hemp : p.coloured_images.isEmpty = true
  · rcases hg : p.image_generator with _ | ⟨d, rest⟩
    · exact ⟨0, by omega, by simp [printCurrentImage, hemp, hg],
        by simp [printCurrentImage, hemp, hg]⟩
    · refine ⟨1, le_rfl, ?_, ?_⟩
      · have hpc : printCurrentImage p
            = printAtCursor
              (addImageAndSetCurrent { p with image_generator := rest } d) := by
          simp [printCurrentImage, hemp, hg]
        rw [hpc, (printAtCursor_state _).1]
        simp [addImageAndSetCurrent]
      · have hpc : printCurrentImage p
            = printAtCursor
              (addImageAndSetCurrent { p with image_generator := rest } d) := by
          simp [printCurrentImage, hemp, hg]
        rw [hpc, (printAtCursor_state _).2.1]
        simp [addImageAndSetCurrent, dataOf, dataOfItem]
  · refine ⟨0, by omega, ?_, ?_⟩
    · have hpc : printCurrentImage p = printAtCursor p := by
        simp [printCurrentImage, hemp]
      rw [hpc, (printAtCursor_state p).1]
      rfl
    · have hpc : printCurrentImage p = printAtCursor p := by
        simp [printCurrentImage, hemp]
      rw [hpc, (printAtCursor_state p).2.1]
      simp

/-- Rendering the current frame preserves cursor validity. -/
theorem printCur_cursor (p : Printer) (h : cursorOk p) :
    cursorOk (printCurrentImage p).2 := by
  by_cases hemp : p.coloured_images.isEmpty = true
  · have hl : p.coloured_images = [] := isEmpty_true_iff.1 hemp
    rcases hg : p.image_generator with _ | ⟨d, rest⟩
    · simp only [printCurrentImage, hemp, hg, if_pos]
      exact h
    · have hpc : printCurrentImage p
          = printAtCursor
            (addImageAndSetCurrent { p with image_generator := rest } d) := by
        simp [printCurrentImage, hemp, hg]
      rw [hpc]
      apply printAtCursor_cursor
      right
      simp [addImageAndSetCurrent, hl]
  · have hpc : printCurrentImage p = printAtCursor p := by
      simp [printCurrentImage, hemp]
    rw [hpc]
    exact printAtCursor_cursor p h

/-- Copying to the clipboard never touches the cache state. -/
theorem copy_state (p : Printer) : (copyCurrentImageToClipboard p).2 = p := by
  unfold copyCurrentImageToClipboard
  by_cases hemp : p.coloured_images.isEmpty = true
  · simp [hemp]
  · rw [if_neg hemp]
    cases getClipboardVersion
        (p.coloured_images.getD p.current_image dummyImage).image_array with
    | none => rfl
    | some r => cases r <;> rfl

/-- An advance whose cursor is not at the materialized frontier performs
zero upstream pulls. -/
theorem moveToNext_noPull_offFrontier (p : Printer)
    (h1 : p.coloured_images ≠ [])
    (h2 : p.current_image < p.coloured_images.length - 1) :
    (moveToNextImage p).2.image_generator = p.image_generator := by
  have hemp : p.coloured_images.isEmpty = false := by
    cases hpc : p.coloured_images
    · exact absurd hpc h1
    · rfl
  simp [moveToNextImage, hemp, h2]

/-- A retreat-then-advance revisit of a materialized frame performs zero
upstream pulls. -/
theorem revisit_noPull (p : Printer)
    (h1 : p.coloured_images ≠ [])
    (h2 : p.current_image < p.coloured_images.length)
    (h3 : (moveToPreviousImage p).1 = .ok ()) :
    (moveToNextImage (moveToPreviousImage p).2).2.image_generator
      = p.image_generator := by
  have hemp : p.coloured_images.isEmpty = false := by
    cases hpc : p.coloured_images
    · exact absurd hpc h1
    · rfl
  by_cases hz : p.current_image = 0
  · simp [moveToPreviousImage, hemp, hz] at h3
  · have hq : (moveToPreviousImage p).2
        = { p with current_image := p.current_image - 1 } := by
      simp [moveToPreviousImage, hemp, hz]
    rw [hq]
    have hc : p.current_image - 1 < p.coloured_images.length - 1 := by omega
    simp [moveToNextImage, hemp, hc]

/-- C3: cache invariants preserved by every operation.  Advance, retreat,
render-current and copy-to-clipboard each leave the frame-data list a prefix
of the new one, appending only data pulled from the head of the upstream
generator and consuming at most one element per call (so no element is ever
replayed or reordered); cursor validity is preserved; an off-frontier
advance and a retreat-then-advance revisit perform zero upstream pulls; and
the clipboard copy leaves the state untouched (`get_current_image_data` is a
pure read, visible in its embedded type `Printer → Except ..`). -/
theorem cache_invariants (p : Printer) :
    (∃ k ≤ 1,
      (moveToNextImage p).2.image_generator = p.image_generator.drop k
      ∧ dataOf (moveToNextImage p).2
          = dataOf p ++ (p.image_generator.take k).map dataOfItem)
    ∧ (cursorOk p → cursorOk (moveToNextImage p).2)
    ∧ (moveToPreviousImage p).2.image_generator = p.image_generator
    ∧ dataOf (moveToPreviousImage p).2 = dataOf p
    ∧ (cursorOk p → cursorOk (moveToPreviousImage p).2)
    ∧ (∃ k ≤ 1,
      (printCurrentImage p).2.image_generator = p.image_generator.drop k
      ∧ dataOf (printCurrentImage p).2
          = dataOf p ++ (p.image_generator.take k).map dataOfItem)
    ∧ (cursorOk p → cursorOk (printCurrentImage p).2)
    ∧ (copyCurrentImageToClipboard p).2 = p
    ∧ (p.coloured_images ≠ [] →
        p.current_image < p.coloured_images.length - 1 →
        (moveToNextImage p).2.image_generator = p.image_generator)
    ∧ (p.coloured_images ≠ [] →
        p.current_image < p.coloured_images.length →
        (moveToPreviousImage p).1 = .ok () →
        (moveToNextImage (moveToPreviousImage p).2).2.image_generator
          = p.image_generator) :=
  ⟨moveToNext_pull p, moveToNext_cursor p, (moveToPrev_state p).1,
   (moveToPrev_state p).2.1, moveToPrev_cursor p, printCur_pull p,
   printCur_cursor p, copy_state p, moveToNext_noPull_offFrontier p,
   revisit_noPull p⟩

/-- Witness for C3: on a concrete two-frame cache with the cursor on the
second frame, retreat-then-advance leaves the upstream generator untouched. -/
theorem cache_invariants_witness :
    (moveToNextImage (moveToPreviousImage samplePrinter).2).2.image_generator
      = samplePrinter.image_generator :=
  (cache_invariants samplePrinter).2.2.2.2.2.2.2.2.2 (by decide) (by decide)
    (by decide)

/-- C10: on a cache with no materialized frames, rendering the current frame
performs one upstream pull before rendering — if the source yields a frame
(non-empty, per the Frame invariant) it is appended, the cursor is set to it
and it is rendered (the reveal flag flips) — and the call fails with
`NoImagesRegisteredError` only when the source is already exhausted, leaving
the state unchanged; reading the current frame's data on an empty cache
fails with the same error without ever pulling (`get_current_image_data` is
a `&self` read, embedded as a pure `Printer → Except ..`). -/
theorem print_pulls_on_empty_cache (p : Printer)
    (h : p.coloured_images = []) :
    getCurrentImageData p = .error .NoImagesRegisteredError
    ∧ (p.image_generator = [] →
        printCurrentImage p = (.error .NoImagesRegisteredError, p))
    ∧ ∀ d rest, p.image_generator = d :: rest →
        d.image_array ≠ [] → d.image_array.headD [] ≠ [] →
        (printCurrentImage p).1 = .ok ()
        ∧ dataOf (printCurrentImage p).2 = [dataOfItem d]
        ∧ (printCurrentImage p).2.current_image = 0
        ∧ (printCurrentImage p).2.image_generator = rest
        ∧ ((printCurrentImage p).2.coloured_images.getD 0
            dummyImage).is_rendered = true := by
  have hemp : p.coloured_images.isEmpty = true := by rw [h]; rfl
  refine ⟨by simp [getCurrentImageData, hemp], ?_, ?_⟩
  · intro hg
    simp [printCurrentImage, hemp, hg]
  · intro d rest hg hne hrow
    obtain ⟨r0, rs, harr⟩ := List.exists_cons_of_ne_nil hne
    have hr0 : r0 ≠ [] := by
      rw [harr] at hrow
      simpa using hrow
    have hr0e : r0.isEmpty = false := by
      cases hcr : r0
      · exact absurd hcr hr0
      · rfl
    have himg : printImage
        ⟨d.image_array, 0, d.image_name, false, p.printing_rate_ms⟩
          = (.ok (),
             ⟨d.image_array, 0, d.image_name, true, p.printing_rate_ms⟩) := by
      simp [printImage, harr, hr0e]
    have hadd : addImageAndSetCurrent { p with image_generator := rest } d
        = ⟨rest, [⟨d.image_array, 0, d.image_name, false, p.printing_rate_ms⟩],
           0, p.printing_rate_ms⟩ := by
      simp [addImageAndSetCurrent, h]
    have hpc : printCurrentImage p
        = printAtCursor ⟨rest,
            [⟨d.image_array, 0, d.image_name, false, p.printing_rate_ms⟩],
            0, p.printing_rate_ms⟩ := by
      rw [← hadd]
      simp [printCurrentImage, hemp, hg]
    have hpa : printAtCursor ⟨rest,
        [⟨d.image_array, 0, d.image_name, false, p.printing_rate_ms⟩],
        0, p.printing_rate_ms⟩
          = (.ok (),
             ⟨rest, [⟨d.image_array, 0, d.image_name, true,
               p.printing_rate_ms⟩], 0, p.printing_rate_ms⟩) := by
      simp [printAtCursor, himg]
    rw [hpc, hpa]
    exact ⟨rfl, by simp [dataOf, dataOfItem], rfl, rfl, rfl⟩

/-- Witness for C10: from an empty cache over a one-item source with a
non-empty frame, the first render succeeds. -/
theorem print_pulls_on_empty_cache_witness :
    (printCurrentImage (Printer.new [⟨"a".data, [["x".data]]⟩] 0)).1
      = .ok () :=
  ((print_pulls_on_empty_cache (Printer.new [⟨"a".data, [["x".data]]⟩] 0)
      rfl).2.2 ⟨"a".data, [["x".data]]⟩ [] rfl (by decide) (by decide)).1

end ColourfulWords
